import Mathlib

/-!
Shallow embedding of the service-center scheduler in `src/app.py`.

Times and durations are rationals (seconds); `datetime.now()` becomes an
explicit `now : ℚ` argument.  Worker load counters are integers, as in the
source, where `current_workload` is an unchecked Python `int`.  Mutation of
an `Agent` or `Customer` object becomes returning an updated record.
-/

namespace ResourceScheduler

/-- Priority tiers: the keys of `PRIORITY_LEVELS` in `src/app.py`. -/
inductive Priority
  | Normal
  | Corporate
  | VIP
deriving DecidableEq

/-- The numeric rank of a tier, the `PRIORITY_LEVELS` dict (lines 13-17). -/
def Priority.level : Priority → ℤ
  | .VIP => 3
  | .Corporate => 2
  | .Normal => 1

/-- Customer lifecycle states: the `status` strings of `src/app.py`. -/
inductive Status
  | Waiting
  | BeingServed
  | Completed
deriving DecidableEq

/-- The `Customer` class (lines 89-111).  `customers_served` on agents keeps
only the customer id, all claims read just its length. -/
structure Customer where
  customer_id : ℕ
  priority : Priority
  service_time : ℚ
  arrival_time : ℚ
  service_start_time : Option ℚ := none
  service_end_time : Option ℚ := none
  status : Status := .Waiting
  assigned_agent : Option ℕ := none
  wait_time : Option ℚ := none
deriving DecidableEq

/-- The `Agent` class state (lines 29-39). -/
structure Agent where
  agent_id : ℕ
  name : String
  workload_limit : ℤ
  current_workload : ℤ := 0
  available : Bool := true
  customers_served : List ℕ := []
  total_service_time : ℚ := 0
  idle_time : ℚ := 0
  last_status_change : ℚ
deriving DecidableEq

/-- `Agent.__init__` (lines 30-39). -/
def Agent.init (id : ℕ) (nm : String) (limit : ℤ) (now : ℚ) : Agent :=
  { agent_id := id, name := nm, workload_limit := limit, last_status_change := now }

/-- `Agent.assign_customer` (lines 41-51): returns the success flag and the
updated agent and customer. -/
def assign_customer (a : Agent) (c : Customer) (now : ℚ) : Bool × Agent × Customer :=
  if a.current_workload < a.workload_limit then
    ( true,
      { a with
        current_workload := a.current_workload + 1,
        available := if a.current_workload + 1 = a.workload_limit then false else a.available,
        customers_served := a.customers_served ++ [c.customer_id] },
      { c with
        status := .BeingServed,
        assigned_agent := some a.agent_id,
        service_start_time := some now } )
  else (false, a, c)

/-- `Agent.complete_service` (lines 53-62): returns the service duration and
the updated agent and customer.  The source reads
`customer.service_start_time` unguarded; `getD 0` stands for that read (all
claims supply `service_start_time = some t`). -/
def complete_service (a : Agent) (c : Customer) (now : ℚ) : ℚ × Agent × Customer :=
  let start := c.service_start_time.getD 0
  ( now - start,
    { a with
      current_workload := a.current_workload - 1,
      available := if a.current_workload - 1 < a.workload_limit then true else a.available,
      total_service_time := a.total_service_time + (now - start) },
    { c with
      status := .Completed,
      service_end_time := some now,
      wait_time := some (start - c.arrival_time) } )

/-- `Agent.update_status` (lines 64-70). -/
def update_status (a : Agent) (now : ℚ) : Agent :=
  if a.available = false then
    { a with last_status_change := now }
  else
    { a with
      idle_time := a.idle_time + (now - a.last_status_change),
      last_status_change := now }

/-- Python `round(x, 2)` (tie behavior is immaterial to every claim). -/
def round2 (q : ℚ) : ℚ := (round (q * 100) : ℤ) / 100

/-- `Agent.calculate_utilization_rate` (lines 83-87). -/
def calculate_utilization_rate (a : Agent) (now : ℚ) : ℚ :=
  let total := (now - a.last_status_change) + a.total_service_time + a.idle_time
  if 0 < total then round2 (a.total_service_time / total * 100) else 0

/-- The dict produced by `Agent.to_dict` (lines 72-81). -/
structure AgentView where
  agent_id : ℕ
  name : String
  workload_limit : ℤ
  current_workload : ℤ
  available : Bool
  customers_served : ℕ
  utilization_rate : ℚ
deriving DecidableEq

/-- `Agent.to_dict` (lines 72-81); `customers_served` is the list length. -/
def Agent.to_dict (a : Agent) (now : ℚ) : AgentView :=
  { agent_id := a.agent_id
    name := a.name
    workload_limit := a.workload_limit
    current_workload := a.current_workload
    available := a.available
    customers_served := a.customers_served.length
    utilization_rate := calculate_utilization_rate a now }

/-- The worker invariant stated in the spec: load within bounds and
`available` caching `currentLoad < capacity`. -/
def AgentInv (a : Agent) : Prop :=
  0 ≤ a.current_workload ∧ a.current_workload ≤ a.workload_limit ∧
    (a.available = true ↔ a.current_workload < a.workload_limit)

instance (a : Agent) : Decidable (AgentInv a) := by
  unfold AgentInv; infer_instance

/-- The sort key order of `priority_scheduling` (line 138):
Python tuple order on `(-c.priority_level, c.arrival_time)`. -/
def pKeyLE (a b : Customer) : Prop :=
  b.priority.level < a.priority.level ∨
    (a.priority.level = b.priority.level ∧ a.arrival_time ≤ b.arrival_time)

instance : DecidableRel pKeyLE := fun a b => by
  unfold pKeyLE; infer_instance

instance : IsTotal Customer pKeyLE := by
  constructor
  intro a b
  rcases lt_trichotomy a.priority.level b.priority.level with h | h | h
  · exact Or.inr (Or.inl h)
  · rcases le_total a.arrival_time b.arrival_time with h2 | h2
    · exact Or.inl (Or.inr ⟨h, h2⟩)
    · exact Or.inr (Or.inr ⟨h.symm, h2⟩)
  · exact Or.inl (Or.inl h)

instance : IsTrans Customer pKeyLE := by
  constructor
  rintro a b c (hab | ⟨hab, hab2⟩) (hbc | ⟨hbc, hbc2⟩)
  · exact Or.inl (hbc.trans hab)
  · exact Or.inl (hbc ▸ hab)
  · exact Or.inl (hab ▸ hbc)
  · exact Or.inr ⟨hab.trans hbc, hab2.trans hbc2⟩

/-- The sort key order of `shortest_job_next` (line 159):
Python tuple order on `(c.service_time, -c.priority_level)`. -/
def sKeyLE (a b : Customer) : Prop :=
  a.service_time < b.service_time ∨
    (a.service_time = b.service_time ∧ b.priority.level ≤ a.priority.level)

instance : DecidableRel sKeyLE := fun a b => by
  unfold sKeyLE; infer_instance

instance : IsTotal Customer sKeyLE := by
  constructor
  intro a b
  rcases lt_trichotomy a.service_time b.service_time with h | h | h
  · exact Or.inl (Or.inl h)
  · rcases le_total a.priority.level b.priority.level with h2 | h2
    · exact Or.inr (Or.inr ⟨h.symm, h2⟩)
    · exact Or.inl (Or.inr ⟨h, h2⟩)
  · exact Or.inr (Or.inl h)

instance : IsTrans Customer sKeyLE := by
  constructor
  rintro a b c (hab | ⟨hab, hab2⟩) (hbc | ⟨hbc, hbc2⟩)
  · exact Or.inl (hab.trans hbc)
  · exact Or.inl (hbc ▸ hab)
  · exact Or.inl (hab ▸ hbc)
  · exact Or.inr ⟨hab.trans hbc, hbc2.trans hab2⟩

/-- Folding step of Python `max(..., key=f)`: the running maximum is replaced
only on a strictly larger key, so the first maximum wins. -/
def pythonMaxFrom (f : Agent → ℤ) (best : Agent) : List Agent → Agent
  | [] => best
  | x :: xs => pythonMaxFrom f (if f best < f x then x else best) xs

/-- Python `max(l, key=f)` on a possibly empty list. -/
def pythonMax (f : Agent → ℤ) : List Agent → Option Agent
  | [] => none
  | a :: l => some (pythonMaxFrom f a l)

/-- Folding step of Python `min(..., key=f)`: the running minimum is replaced
only on a strictly smaller key, so the first minimum wins. -/
def pythonMinFrom (f : Agent → ℤ) (best : Agent) : List Agent → Agent
  | [] => best
  | x :: xs => pythonMinFrom f (if f x < f best then x else best) xs

/-- Python `min(l, key=f)` on a possibly empty list. -/
def pythonMin (f : Agent → ℤ) : List Agent → Option Agent
  | [] => none
  | a :: l => some (pythonMinFrom f a l)

/-- The three values of the module-level `current_algorithm` reference. -/
inductive Alg
  | round_robin
  | priority
  | shortest_job
deriving DecidableEq

/-- `get_algorithm_name` (lines 738-745); with the tagged representation the
`"Unknown"` fall-through is unreachable. -/
def get_algorithm_name : Alg → String
  | .round_robin => "Round Robin"
  | .priority => "Priority Scheduling"
  | .shortest_job => "Shortest Job Next"

/-- The mutable module-level state of `src/app.py` that the claims touch:
`agents`, `waiting_queue`, `service_history` (completed snapshots) and
`current_algorithm`. -/
structure SysState where
  agents : List Agent
  waiting_queue : List Customer
  service_history : List Customer
  current_algorithm : Alg

/-- In-place mutation of the selected agent object inside the pool list
(agent ids are unique uuids in the source). -/
def setAgent (ags : List Agent) (a : Agent) : List Agent :=
  ags.map fun x => if x.agent_id = a.agent_id then a else x

/-- An agent's spare capacity, the key of `max` at line 145. -/
def spare (a : Agent) : ℤ := a.workload_limit - a.current_workload

/-- `priority_scheduling` (lines 132-151): sort the queue by
`(-priority_level, arrival_time)`, pick the available agent with the most
spare capacity, pop and assign the new head.  If no agent is available the
queue is left sorted (the sort happened before the agent check). -/
def priority_scheduling (now : ℚ) (s : SysState) : Option Customer × SysState :=
  if s.waiting_queue = [] then (none, s)
  else
    match pythonMax spare (s.agents.filter fun a => a.available) with
    | none => (none, { s with waiting_queue := List.insertionSort pKeyLE s.waiting_queue })
    | some ag =>
      match List.insertionSort pKeyLE s.waiting_queue with
      | [] => (none, { s with waiting_queue := [] })
      | c :: rest =>
        (some (assign_customer ag c now).2.2,
         { s with
           waiting_queue := rest,
           agents := setAgent s.agents (assign_customer ag c now).2.1 })

/-- `shortest_job_next` (lines 153-172): sort the queue by
`(service_time, -priority_level)`, pick the available agent with the least
current workload, pop and assign the new head. -/
def shortest_job_next (now : ℚ) (s : SysState) : Option Customer × SysState :=
  if s.waiting_queue = [] then (none, s)
  else
    match pythonMin (fun a => a.current_workload) (s.agents.filter fun a => a.available) with
    | none => (none, { s with waiting_queue := List.insertionSort sKeyLE s.waiting_queue })
    | some ag =>
      match List.insertionSort sKeyLE s.waiting_queue with
      | [] => (none, { s with waiting_queue := [] })
      | c :: rest =>
        (some (assign_customer ag c now).2.2,
         { s with
           waiting_queue := rest,
           agents := setAgent s.agents (assign_customer ag c now).2.1 })

/-- `set_algorithm` (lines 723-736): the `Except` value is the HTTP response
(error 400 for an unknown name), the second component the resulting
`current_algorithm`. -/
def set_algorithm (cur : Alg) (name : String) : Except String Unit × Alg :=
  if name = "round_robin" then (Except.ok (), Alg.round_robin)
  else if name = "priority" then (Except.ok (), Alg.priority)
  else if name = "shortest_job" then (Except.ok (), Alg.shortest_job)
  else (Except.error "Invalid algorithm", cur)

/-- `mean_workload` at line 708: `sum(workloads) / len(workloads)`. -/
def workloadMean (ws : List ℤ) : ℚ := (ws.sum : ℚ) / (ws.length : ℚ)

/-- `variance` at line 709: the population variance of the workloads. -/
def workloadVariance (ws : List ℤ) : ℚ :=
  (ws.map fun (w : ℤ) => ((w : ℚ) - workloadMean ws) ^ 2).sum / (ws.length : ℚ)

/-- The `fairness_score` local of `get_metrics` (lines 706-712):
`100 - 100 * variance ** 0.5` when there are workers, else `100`.  The float
square root is modelled as the exact real square root. -/
noncomputable def fairness_score (ws : List ℤ) : ℝ :=
  if ws = [] then 100 else 100 - 100 * Real.sqrt (workloadVariance ws)

/-- The population standard deviation of the worker loads, stated directly
over the reals following the spec's wording, to compare with the code's
`variance ** 0.5` (rational variance under a real square root). -/
noncomputable def popStddev (ws : List ℤ) : ℝ :=
  Real.sqrt ((ws.map fun (w : ℤ) => ((w : ℝ) - (ws.sum : ℝ) / (ws.length : ℝ)) ^ 2).sum /
    (ws.length : ℝ))

/-- `avg_wait_time` of `get_metrics` (lines 694-700): the wait times of
history entries that are not `'N/A'`, summed and divided by the total number
of history entries. -/
def avg_wait_time (hist : List Customer) : ℚ :=
  if 0 < hist.length then (hist.filterMap fun c => c.wait_time).sum / (hist.length : ℚ)
  else 0

/-- `avg_utilization` of `get_metrics` (line 703). -/
def avg_utilization (ags : List Agent) (now : ℚ) : ℚ :=
  if ags = [] then 0
  else (ags.map fun a => calculate_utilization_rate a now).sum / (ags.length : ℚ)

/-- Python `round(x, 2)` on the real-valued fairness score. -/
noncomputable def round2R (x : ℝ) : ℝ := (round (x * 100) : ℤ) / 100

/-- The JSON object returned by `get_metrics` (lines 714-721). -/
structure Metrics where
  average_wait_time : ℚ
  agent_utilization : ℚ
  fairness_score : ℝ
  completed_customers : ℕ
  customers_in_queue : ℕ
  active_algorithm : String

/-- `get_metrics` (lines 691-721), as a pure function of the state and of the
clock value `now` read by `calculate_utilization_rate`. -/
noncomputable def get_metrics (s : SysState) (now : ℚ) : Metrics :=
  { average_wait_time := round2 (avg_wait_time s.service_history)
    agent_utilization := round2 (avg_utilization s.agents now)
    fairness_score := round2R (fairness_score (s.agents.map fun a => a.current_workload))
    completed_customers := s.service_history.length
    customers_in_queue := s.waiting_queue.length
    active_algorithm := get_algorithm_name s.current_algorithm }

/-- One mutation of a single worker, for the operation sequences of the
invariant claim. -/
inductive AgentOp
  | tryAssign (c : Customer) (now : ℚ)
  | completeService (c : Customer) (now : ℚ)
  | refreshIdleAccounting (now : ℚ)

/-- Apply one operation to a worker, keeping only the worker's state. -/
def applyOp (a : Agent) : AgentOp → Agent
  | .tryAssign c now => (assign_customer a c now).2.1
  | .completeService c now => (complete_service a c now).2.1
  | .refreshIdleAccounting now => update_status a now

/-- The side condition of the invariant claim: `completeService` is only
invoked on a worker that currently has an item assigned. -/
def opOk (a : Agent) : AgentOp → Prop
  | .completeService _ _ => 1 ≤ a.current_workload
  | _ => True

instance (a : Agent) (op : AgentOp) : Decidable (opOk a op) := by
  cases op <;> (unfold opOk; infer_instance)

/-- A sequence of operations each legal in the state it is applied in. -/
def opsOk (a : Agent) : List AgentOp → Prop
  | [] => True
  | op :: ops => opOk a op ∧ opsOk (applyOp a op) ops

instance (a : Agent) (ops : List AgentOp) : Decidable (opsOk a ops) := by
  induction ops generalizing a with
  | nil => unfold opsOk; infer_instance
  | cons op ops ih => unfold opsOk; exact @instDecidableAnd _ _ inferInstance (ih _)

/-- Apply a sequence of operations to a worker. -/
def applyOps (a : Agent) (ops : List AgentOp) : Agent :=
  ops.foldl applyOp a

instance : IsRefl Customer pKeyLE :=
  ⟨fun _ => Or.inr ⟨rfl, le_refl _⟩⟩

instance : IsRefl Customer sKeyLE :=
  ⟨fun _ => Or.inr ⟨rfl, le_refl _⟩⟩

theorem pythonMaxFrom_decomp (f : Agent → ℤ) (l : List Agent) :
    ∀ best : Agent, ∃ l1 l2, best :: l = l1 ++ pythonMaxFrom f best l :: l2 ∧
      (∀ a ∈ l1, f a < f (pythonMaxFrom f best l)) ∧
      (∀ a ∈ l2, f a ≤ f (pythonMaxFrom f best l)) := by
  induction l with
  | nil => exact fun best => ⟨[], [], rfl, by simp, by simp⟩
  | cons x xs ih =>
    intro best
    by_cases h : f best < f x
    · rw [pythonMaxFrom, if_pos h]
      obtain ⟨l1, l2, hdec, hlt, hle⟩ := ih x
      cases l1 with
      | nil =>
        simp only [List.nil_append] at hdec
        injection hdec with h1 h2
        refine ⟨[best], l2, ?_, ?_, hle⟩
        · simp only [List.cons_append, List.nil_append]
          rw [← h1, ← h2]
        · intro a ha
          simp only [List.mem_singleton] at ha
          subst ha
          exact h1 ▸ h
      | cons y l1t =>
        simp only [List.cons_append] at hdec
        obtain ⟨h1, h2⟩ := List.cons_eq_cons.mp hdec
        refine ⟨best :: y :: l1t, l2, ?_, ?_, hle⟩
        · simp only [List.cons_append]
          exact congrArg (List.cons best) hdec
        · intro a ha
          rcases List.mem_cons.mp ha with rfl | ha
          · have hy : f y < f (pythonMaxFrom f x xs) := hlt y (List.mem_cons_self y l1t)
            calc f a < f x := h
              _ = f y := by rw [h1]
              _ < _ := hy
          · exact hlt a ha
    · rw [pythonMaxFrom, if_neg h]
      push_neg at h
      obtain ⟨l1, l2, hdec, hlt, hle⟩ := ih best
      cases l1 with
      | nil =>
        simp only [List.nil_append] at hdec
        injection hdec with h1 h2
        refine ⟨[], x :: l2, ?_, by simp, ?_⟩
        · simp only [List.nil_append]
          rw [← h1, ← h2]
        · intro a ha
          rcases List.mem_cons.mp ha with rfl | ha
          · exact h1 ▸ h
          · exact hle a ha
      | cons y l1t =>
        simp only [List.cons_append] at hdec
        obtain ⟨h1, h2⟩ := List.cons_eq_cons.mp hdec
        refine ⟨best :: x :: l1t, l2, ?_, ?_, hle⟩
        · simp only [List.cons_append]
          exact congrArg (fun t => best :: x :: t) h2
        · intro a ha
          rcases List.mem_cons.mp ha with rfl | ha
          · exact h1 ▸ hlt y (List.mem_cons_self y l1t)
          · rcases List.mem_cons.mp ha with rfl | ha
            · calc f a ≤ f best := h
                _ < _ := h1 ▸ hlt y (List.mem_cons_self y l1t)
            · exact hlt a (List.mem_cons_of_mem y ha)

theorem pythonMax_decomp (f : Agent → ℤ) (l : List Agent) (m : Agent)
    (h : pythonMax f l = some m) :
    ∃ l1 l2, l = l1 ++ m :: l2 ∧ (∀ a ∈ l1, f a < f m) ∧ (∀ a ∈ l2, f a ≤ f m) := by
  cases l with
  | nil => cases h
  | cons a l =>
    rw [pythonMax] at h
    injection h with h
    obtain ⟨l1, l2, hdec, hlt, hle⟩ := pythonMaxFrom_decomp f l a
    rw [h] at hdec hlt hle
    exact ⟨l1, l2, hdec, hlt, hle⟩

theorem pythonMinFrom_decomp (f : Agent → ℤ) (l : List Agent) :
    ∀ best : Agent, ∃ l1 l2, best :: l = l1 ++ pythonMinFrom f best l :: l2 ∧
      (∀ a ∈ l1, f (pythonMinFrom f best l) < f a) ∧
      (∀ a ∈ l2, f (pythonMinFrom f best l) ≤ f a) := by
  induction l with
  | nil => exact fun best => ⟨[], [], rfl, by simp, by simp⟩
  | cons x xs ih =>
    intro best
    by_cases h : f x < f best
    · rw [pythonMinFrom, if_pos h]
      obtain ⟨l1, l2, hdec, hlt, hle⟩ := ih x
      cases l1 with
      | nil =>
        simp only [List.nil_append] at hdec
        injection hdec with h1 h2
        refine ⟨[best], l2, ?_, ?_, hle⟩
        · simp only [List.cons_append, List.nil_append]
          rw [← h1, ← h2]
        · intro a ha
          simp only [List.mem_singleton] at ha
          subst ha
          exact h1 ▸ h
      | cons y l1t =>
        simp only [List.cons_append] at hdec
        obtain ⟨h1, h2⟩ := List.cons_eq_cons.mp hdec
        refine ⟨best :: y :: l1t, l2, ?_, ?_, hle⟩
        · simp only [List.cons_append]
          exact congrArg (List.cons best) hdec
        · intro a ha
          rcases List.mem_cons.mp ha with rfl | ha
          · have hy : f (pythonMinFrom f x xs) < f y := hlt y (List.mem_cons_self y l1t)
            calc f (pythonMinFrom f x xs) < f y := hy
              _ = f x := by rw [← h1]
              _ < f a := h
          · exact hlt a ha
    · rw [pythonMinFrom, if_neg h]
      push_neg at h
      obtain ⟨l1, l2, hdec, hlt, hle⟩ := ih best
      cases l1 with
      | nil =>
        simp only [List.nil_append] at hdec
        injection hdec with h1 h2
        refine ⟨[], x :: l2, ?_, by simp, ?_⟩
        · simp only [List.nil_append]
          rw [← h1, ← h2]
        · intro a ha
          rcases List.mem_cons.mp ha with rfl | ha
          · exact h1 ▸ h
          · exact hle a ha
      | cons y l1t =>
        simp only [List.cons_append] at hdec
        obtain ⟨h1, h2⟩ := List.cons_eq_cons.mp hdec
        refine ⟨best :: x :: l1t, l2, ?_, ?_, hle⟩
        · simp only [List.cons_append]
          exact congrArg (fun t => best :: x :: t) h2
        · intro a ha
          rcases List.mem_cons.mp ha with rfl | ha
          · exact h1 ▸ hlt y (List.mem_cons_self y l1t)
          · rcases List.mem_cons.mp ha with rfl | ha
            · calc f (pythonMinFrom f best xs) < f best := h1 ▸ hlt y (List.mem_cons_self y l1t)
                _ ≤ f a := h
            · exact hlt a (List.mem_cons_of_mem y ha)

theorem pythonMin_decomp (f : Agent → ℤ) (l : List Agent) (m : Agent)
    (h : pythonMin f l = some m) :
    ∃ l1 l2, l = l1 ++ m :: l2 ∧ (∀ a ∈ l1, f m < f a) ∧ (∀ a ∈ l2, f m ≤ f a) := by
  cases l with
  | nil => cases h
  | cons a l =>
    rw [pythonMin] at h
    injection h with h
    obtain ⟨l1, l2, hdec, hlt, hle⟩ := pythonMinFrom_decomp f l a
    rw [h] at hdec hlt hle
    exact ⟨l1, l2, hdec, hlt, hle⟩

theorem insertionSort_head_min {r : Customer → Customer → Prop} [DecidableRel r]
    [IsTotal Customer r] [IsTrans Customer r] [IsRefl Customer r]
    {l rest : List Customer} {c : Customer}
    (h : List.insertionSort r l = c :: rest) :
    (c :: rest).Sorted r ∧ (c :: rest).Perm l ∧ ∀ b ∈ l, r c b := by
  have hperm : (c :: rest).Perm l := h ▸ List.perm_insertionSort r l
  have hsort : (c :: rest).Sorted r := h ▸ List.sorted_insertionSort r l
  refine ⟨hsort, hperm, fun b hb => ?_⟩
  rcases List.mem_cons.mp (hperm.mem_iff.mpr hb) with rfl | h1
  · exact refl_of r b
  · exact List.rel_of_sorted_cons hsort b h1

theorem applyOp_inv (a : Agent) (op : AgentOp) (ha : AgentInv a) (hok : opOk a op) :
    AgentInv (applyOp a op) := by
  obtain ⟨h0, h1, h2⟩ := ha
  cases op with
  | tryAssign c now =>
    show AgentInv (assign_customer a c now).2.1
    unfold assign_customer AgentInv
    by_cases h : a.current_workload < a.workload_limit
    · rw [if_pos h]
      refine ⟨?_, ?_, ?_⟩
      · show (0:ℤ) ≤ a.current_workload + 1
        omega
      · show a.current_workload + 1 ≤ a.workload_limit
        omega
      · show (if a.current_workload + 1 = a.workload_limit then false else a.available) = true ↔
          a.current_workload + 1 < a.workload_limit
        by_cases he : a.current_workload + 1 = a.workload_limit
        · rw [if_pos he]
          constructor
          · intro hf
            cases hf
          · intro hlt
            omega
        · rw [if_neg he, h2]
          omega
    · rw [if_neg h]
      exact ⟨h0, h1, h2⟩
  | completeService c now =>
    show AgentInv (complete_service a c now).2.1
    have hok' : 1 ≤ a.current_workload := hok
    unfold complete_service AgentInv
    refine ⟨?_, ?_, ?_⟩
    · show (0:ℤ) ≤ a.current_workload - 1
      omega
    · show a.current_workload - 1 ≤ a.workload_limit
      omega
    · show (if a.current_workload - 1 < a.workload_limit then true else a.available) = true ↔
        a.current_workload - 1 < a.workload_limit
      rw [if_pos (by omega)]
      simp only [true_iff]
      omega
  | refreshIdleAccounting now =>
    show AgentInv (update_status a now)
    unfold update_status AgentInv
    by_cases h : a.available = false
    · rw [if_pos h]
      exact ⟨h0, h1, h2⟩
    · rw [if_neg h]
      exact ⟨h0, h1, h2⟩

theorem applyOps_take_inv (ops : List AgentOp) :
    ∀ a : Agent, AgentInv a → opsOk a ops → ∀ n : ℕ, AgentInv (applyOps a (ops.take n)) := by
  induction ops with
  | nil =>
    intro a ha _ n
    simpa [applyOps] using ha
  | cons op ops ih =>
    intro a ha hok n
    cases n with
    | zero => simpa [applyOps] using ha
    | succ n =>
      have h1 : AgentInv (applyOp a op) := applyOp_inv a op ha hok.1
      simpa [applyOps, List.take_succ_cons, List.foldl_cons] using ih (applyOp a op) h1 hok.2 n

/-- Claim C1: starting from a freshly created worker with capacity at least 1
(`init_system` draws capacities in 1..3), after any sequence of `tryAssign`,
`completeService` and `refreshIdleAccounting` operations in which
`completeService` is only invoked on a worker currently holding an item
(`currentLoad >= 1`), the invariant `0 <= currentLoad <= capacity` and
`available == (currentLoad < capacity)` holds after every operation, i.e.
after every prefix of the sequence. -/
theorem agent_invariant_holds (id : ℕ) (nm : String) (limit : ℤ) (t0 : ℚ)
    (hlim : 1 ≤ limit) (ops : List AgentOp)
    (hops : opsOk (Agent.init id nm limit t0) ops) (n : ℕ) :
    AgentInv (applyOps (Agent.init id nm limit t0) (ops.take n)) := by
  apply applyOps_take_inv ops _ _ hops
  refine ⟨?_, ?_, ?_⟩
  · show (0:ℤ) ≤ 0
    exact le_refl 0
  · show (0:ℤ) ≤ limit
    omega
  · show (true = true) ↔ (0:ℤ) < limit
    simp only [true_iff]
    omega

/-- A work item used in concrete witness states: VIP, duration 10, arrives
at t = 0 (item A of the spec scenario in section 8). -/
def itemA : Customer :=
  { customer_id := 1, priority := .VIP, service_time := 10, arrival_time := 0 }

/-- A work item used in concrete witness states: Normal, duration 5, arrives
at t = 1 (item B of the spec scenario in section 8). -/
def itemB : Customer :=
  { customer_id := 2, priority := .Normal, service_time := 5, arrival_time := 1 }

/-- A concrete available worker: capacity 2, load 0. -/
def agentOne : Agent :=
  { agent_id := 11, name := "Alex", workload_limit := 2, last_status_change := 0 }

/-- A concrete full worker: capacity 1, load 1, not available. -/
def agentTwo : Agent :=
  { agent_id := 12, name := "Blake", workload_limit := 1, current_workload := 1,
    available := false, customers_served := [9], last_status_change := 0 }

/-- A concrete system state: two workers (one available), items A and B
waiting in arrival order. -/
def exState : SysState :=
  { agents := [agentOne, agentTwo], waiting_queue := [itemA, itemB],
    service_history := [], current_algorithm := .round_robin }

/-- Witness for C1: a fresh capacity-2 worker taking two assignments, one
completion and one idle refresh keeps the invariant at every step. -/
theorem agent_invariant_holds_witness :
    AgentInv (applyOps (Agent.init 7 "Dana" 2 0)
      ([.tryAssign itemA 1, .tryAssign itemB 2, .completeService itemA 3,
        .refreshIdleAccounting 4].take 4)) :=
  agent_invariant_holds 7 "Dana" 2 0 (by decide)
    [.tryAssign itemA 1, .tryAssign itemB 2, .completeService itemA 3,
      .refreshIdleAccounting 4] (by decide) 4

/-- Claim C4: `assign_customer` on a worker with spare capacity increments
the load, leaves `available` false exactly when the new load reaches
capacity (given the worker invariant), marks the item in service with this
worker and `serviceStartTime = now`, and returns true; on a full worker it
returns false and changes nothing. -/
theorem assign_customer_spec (a : Agent) (c : Customer) (now : ℚ)
    (hinv : AgentInv a) :
    (a.current_workload < a.workload_limit →
      (assign_customer a c now).1 = true ∧
      (assign_customer a c now).2.1.current_workload = a.current_workload + 1 ∧
      ((assign_customer a c now).2.1.available = false ↔
        a.current_workload + 1 = a.workload_limit) ∧
      (assign_customer a c now).2.2.status = Status.BeingServed ∧
      (assign_customer a c now).2.2.assigned_agent = some a.agent_id ∧
      (assign_customer a c now).2.2.service_start_time = some now) ∧
    (a.workload_limit ≤ a.current_workload →
      assign_customer a c now = (false, a, c)) := by
  obtain ⟨h0, h1, h2⟩ := hinv
  constructor
  · intro h
    unfold assign_customer
    rw [if_pos h]
    refine ⟨rfl, rfl, ?_, rfl, rfl, rfl⟩
    show (if a.current_workload + 1 = a.workload_limit then false else a.available) = false ↔
      a.current_workload + 1 = a.workload_limit
    by_cases he : a.current_workload + 1 = a.workload_limit
    · rw [if_pos he]
      simp only [true_iff]
      exact he
    · rw [if_neg he, h2.mpr h]
      simp only [he, iff_false]
      intro hf
      cases hf
  · intro h
    unfold assign_customer
    rw [if_neg (by omega)]

/-- Witness for C4: assigning item A to the available capacity-2 worker
succeeds. -/
theorem assign_customer_spec_witness :
    (assign_customer agentOne itemA 0).1 = true :=
  ((assign_customer_spec agentOne itemA 0 (by decide)).1 (by decide)).1

/-- Claim C5: `complete_service` on an item currently assigned to the worker
(so the worker holds at least one item and the item has a start time)
decrements the load, recomputes `available` (necessarily true, since the new
load is below capacity), adds `now - serviceStartTime` to the cumulative
service time, completes the item with `serviceEndTime = now` and
`waitSeconds = serviceStartTime - arrivalTime`, and returns the service
duration. -/
theorem complete_service_spec (a : Agent) (c : Customer) (now t : ℚ)
    (hload : 1 ≤ a.current_workload) (hcap : a.current_workload ≤ a.workload_limit)
    (hstart : c.service_start_time = some t) :
    (complete_service a c now).1 = now - t ∧
    (complete_service a c now).2.1.current_workload = a.current_workload - 1 ∧
    a.current_workload - 1 < a.workload_limit ∧
    (complete_service a c now).2.1.available = true ∧
    (complete_service a c now).2.1.total_service_time =
      a.total_service_time + (now - t) ∧
    (complete_service a c now).2.2.status = Status.Completed ∧
    (complete_service a c now).2.2.service_end_time = some now ∧
    (complete_service a c now).2.2.wait_time = some (t - c.arrival_time) := by
  have hlt : a.current_workload - 1 < a.workload_limit := by omega
  unfold complete_service
  rw [hstart]
  refine ⟨rfl, rfl, hlt, ?_, rfl, rfl, rfl, rfl⟩
  show (if a.current_workload - 1 < a.workload_limit then true else a.available) = true
  rw [if_pos hlt]

/-- A concrete in-service item: item A assigned to worker 11 at t = 2. -/
def itemAInService : Customer :=
  { itemA with
    status := .BeingServed,
    assigned_agent := some 11,
    service_start_time := some 2 }

/-- A concrete busy worker: capacity 2, load 1, available. -/
def agentOneBusy : Agent :=
  { agentOne with current_workload := 1, customers_served := [1] }

/-- Witness for C5: completing item A on the busy worker at t = 12 returns
the 10-second service duration. -/
theorem complete_service_spec_witness :
    (complete_service agentOneBusy itemAInService 12).1 = 12 - 2 :=
  (complete_service_spec agentOneBusy itemAInService 12 2 (by decide) (by decide)
    (by decide)).1

/-- Counterexample for C9 as stated: this worker serves one item
(`currentLoad = 1 >= 1`, so it is busy in the claim's sense) yet is below
capacity, and `update_status` accrues 5 seconds of idle time on it instead
of only stamping the timestamp. -/
theorem update_status_busy_accrues_idle :
    1 ≤ agentOneBusy.current_workload ∧
    agentOneBusy.current_workload < agentOneBusy.workload_limit ∧
    agentOneBusy.idle_time = 0 ∧
    (update_status agentOneBusy 5).idle_time = 5 := by
  refine ⟨by decide, by decide, rfl, ?_⟩
  show agentOneBusy.idle_time + (5 - agentOneBusy.last_status_change) = 5
  show (0:ℚ) + (5 - 0) = 5
  norm_num

/-- Claim C9 as amended: `update_status` branches on the cached `available`
flag, not on whether the worker is serving items.  A worker at capacity
(`available = false`) only gets its `lastStatusChangeTime` stamped; any
worker below capacity (`available = true`) accrues
`now - lastStatusChangeTime` of idle time and is stamped - even while it is
serving items. -/
theorem update_status_spec (a : Agent) (now : ℚ) :
    (a.available = false → update_status a now = { a with last_status_change := now }) ∧
    (a.available = true → update_status a now =
      { a with idle_time := a.idle_time + (now - a.last_status_change),
               last_status_change := now }) := by
  constructor
  · intro h
    unfold update_status
    rw [if_pos h]
  · intro h
    unfold update_status
    rw [if_neg (by rw [h]; intro hf; cases hf)]

/-- Witness for C9 (amended): the available busy worker accrues idle time. -/
theorem update_status_spec_witness :
    update_status agentOneBusy 5 =
      { agentOneBusy with
        idle_time := agentOneBusy.idle_time + (5 - agentOneBusy.last_status_change),
        last_status_change := 5 } :=
  (update_status_spec agentOneBusy 5).2 rfl

/-- Claim C10: the `customers_served` count exposed by `to_dict` grows by one
at assignment time and is untouched by `complete_service`, so it counts every
item ever assigned to the worker, in-service items included. -/
theorem customers_served_counts_assignments (a : Agent) (c : Customer) (now : ℚ) :
    ((assign_customer a c now).1 = true →
      ((assign_customer a c now).2.1.to_dict now).customers_served =
        (a.to_dict now).customers_served + 1) ∧
    (((complete_service a c now).2.1).to_dict now).customers_served =
      (a.to_dict now).customers_served := by
  constructor
  · intro h
    unfold assign_customer at h ⊢
    by_cases hc : a.current_workload < a.workload_limit
    · rw [if_pos hc]
      show (a.customers_served ++ [c.customer_id]).length = a.customers_served.length + 1
      rw [List.length_append, List.length_singleton]
    · rw [if_neg hc] at h
      cases h
  · rfl

/-- Witness for C10: assigning item A to the available worker bumps the
exposed count from 0 to 1. -/
theorem customers_served_counts_assignments_witness :
    ((assign_customer agentOne itemA 0).2.1.to_dict 0).customers_served =
      (agentOne.to_dict 0).customers_served + 1 :=
  (customers_served_counts_assignments agentOne itemA 0).1 (by decide)

/-- Claim C6: `set_algorithm` succeeds exactly on the names `"round_robin"`,
`"priority"` and `"shortest_job"`, installing the corresponding policy; any
other name yields the invalid-algorithm error and leaves the active policy
unchanged. -/
theorem set_algorithm_spec (cur : Alg) (name : String) :
    set_algorithm cur "round_robin" = (Except.ok (), Alg.round_robin) ∧
    set_algorithm cur "priority" = (Except.ok (), Alg.priority) ∧
    set_algorithm cur "shortest_job" = (Except.ok (), Alg.shortest_job) ∧
    (name ≠ "round_robin" → name ≠ "priority" → name ≠ "shortest_job" →
      set_algorithm cur name = (Except.error "Invalid algorithm", cur)) := by
  refine ⟨rfl, rfl, rfl, ?_⟩
  intro h1 h2 h3
  unfold set_algorithm
  rw [if_neg h1, if_neg h2, if_neg h3]

/-- Witness for C6: `setPolicy("bogus")` reports the error and keeps
round-robin active. -/
theorem set_algorithm_spec_witness :
    set_algorithm Alg.round_robin "bogus" =
      (Except.error "Invalid algorithm", Alg.round_robin) :=
  (set_algorithm_spec Alg.round_robin "bogus").2.2.2 (by decide) (by decide) (by decide)

/-- Claim C2: with a non-empty queue (witnessed by the sorted queue being
`c :: rest`) and at least one available worker (witnessed by `max` returning
`ag`), `priority_scheduling` reorders the full queue into a permutation
sorted by priority tier descending with arrival-time ascending tie-break,
selects the available worker with the most spare capacity (first in pool
order among ties), dequeues the new head `c` and assigns it; consequently no
Normal item is dequeued at this instant while a VIP item is present, and
within an equal tier the earliest arrival is the one dequeued. -/
theorem priority_scheduling_spec (now : ℚ) (s : SysState) (c : Customer)
    (rest : List Customer) (ag : Agent)
    (hsort : List.insertionSort pKeyLE s.waiting_queue = c :: rest)
    (hmax : pythonMax spare (s.agents.filter fun a => a.available) = some ag) :
    (c :: rest).Sorted pKeyLE ∧ (c :: rest).Perm s.waiting_queue ∧
    priority_scheduling now s =
      (some (assign_customer ag c now).2.2,
       { s with
         waiting_queue := rest,
         agents := setAgent s.agents (assign_customer ag c now).2.1 }) ∧
    ag.available = true ∧ ag ∈ s.agents ∧
    (∀ a ∈ s.agents, a.available = true → spare a ≤ spare ag) ∧
    (∃ l1 l2, s.agents.filter (fun a => a.available) = l1 ++ ag :: l2 ∧
      ∀ a ∈ l1, spare a < spare ag) ∧
    ((∃ v ∈ s.waiting_queue, v.priority = Priority.VIP) →
      c.priority ≠ Priority.Normal) ∧
    (∀ b ∈ s.waiting_queue, b.priority = Priority.Normal →
      (∃ v ∈ s.waiting_queue, v.priority = Priority.VIP) → c ≠ b) ∧
    (∀ b ∈ s.waiting_queue, c.priority.level = b.priority.level →
      c.arrival_time ≤ b.arrival_time) ∧
    (∀ b ∈ s.waiting_queue,
      (∃ a ∈ s.waiting_queue, a.priority.level = b.priority.level ∧
        a.arrival_time < b.arrival_time) → c ≠ b) := by
  obtain ⟨hsorted, hperm, hmin⟩ := insertionSort_head_min hsort
  have hq : s.waiting_queue ≠ [] := by
    intro h
    rw [h] at hsort
    simp [List.insertionSort] at hsort
  have heq : priority_scheduling now s =
      (some (assign_customer ag c now).2.2,
       { s with
         waiting_queue := rest,
         agents := setAgent s.agents (assign_customer ag c now).2.1 }) := by
    unfold priority_scheduling
    rw [if_neg hq, hmax, hsort]
  obtain ⟨l1, l2, hfilter, hlt⟩ := pythonMax_decomp spare _ ag hmax
  have hagfil : ag ∈ s.agents.filter fun a => a.available := by
    rw [hfilter]
    exact List.mem_append_right l1 (List.mem_cons_self ag l2)
  obtain ⟨hagmem, hagav⟩ := List.mem_filter.mp hagfil
  have hmax' : ∀ a ∈ s.agents, a.available = true → spare a ≤ spare ag := by
    intro a hamem haav
    have : a ∈ s.agents.filter fun x => x.available := List.mem_filter.mpr ⟨hamem, haav⟩
    rw [hfilter] at this
    rcases List.mem_append.mp this with h | h
    · exact le_of_lt (hlt.1 a h)
    · rcases List.mem_cons.mp h with rfl | h
      · exact le_refl _
      · exact hlt.2 a h
  have hVIP : (∃ v ∈ s.waiting_queue, v.priority = Priority.VIP) →
      c.priority ≠ Priority.Normal := by
    rintro ⟨v, hv, hvp⟩ hcn
    rcases hmin v hv with h | ⟨h, _⟩
    · rw [hvp, hcn] at h
      simp [Priority.level] at h
    · rw [hvp, hcn] at h
      simp [Priority.level] at h
  have hTier : ∀ b ∈ s.waiting_queue, c.priority.level = b.priority.level →
      c.arrival_time ≤ b.arrival_time := by
    intro b hb hlev
    rcases hmin b hb with h | ⟨_, h⟩
    · omega
    · exact h
  refine ⟨hsorted, hperm, heq, hagav, hagmem, hmax', ⟨l1, l2, hfilter, hlt.1⟩,
    hVIP, ?_, hTier, ?_⟩
  · intro b hb hbn hvip hcb
    subst hcb
    exact hVIP hvip hbn
  · rintro b hb ⟨a, ha, haeq, halt⟩ hcb
    subst hcb
    rcases hmin a ha with h | ⟨h, h2⟩
    · omega
    · have := h2.trans_lt halt
      exact absurd this (lt_irrefl _)

/-- Witness for C2, realizing the scenario of spec section 8: with one
available worker and queue `[A (VIP, arrives t=0), B (Normal, arrives t=1)]`,
the priority policy dispatches A first and leaves B queued. -/
theorem priority_scheduling_spec_witness :
    priority_scheduling 2 exState =
      (some (assign_customer agentOne itemA 2).2.2,
       { exState with
         waiting_queue := [itemB],
         agents := setAgent exState.agents (assign_customer agentOne itemA 2).2.1 }) :=
  ((priority_scheduling_spec 2 exState itemA [itemB] agentOne (by decide)
    (by decide)).2.2).1

/-- Claim C3: with a non-empty queue and at least one available worker,
`shortest_job_next` reorders the full queue into a permutation sorted by
service duration ascending with priority tier descending tie-break, selects
the available worker with the smallest current load (first in pool order
among ties), dequeues the new head `c` and assigns it; consequently the
dequeued item has minimal duration among the items present, so an item is
never dequeued while a strictly shorter item is present. -/
theorem shortest_job_next_spec (now : ℚ) (s : SysState) (c : Customer)
    (rest : List Customer) (ag : Agent)
    (hsort : List.insertionSort sKeyLE s.waiting_queue = c :: rest)
    (hmn : pythonMin (fun a => a.current_workload)
      (s.agents.filter fun a => a.available) = some ag) :
    (c :: rest).Sorted sKeyLE ∧ (c :: rest).Perm s.waiting_queue ∧
    shortest_job_next now s =
      (some (assign_customer ag c now).2.2,
       { s with
         waiting_queue := rest,
         agents := setAgent s.agents (assign_customer ag c now).2.1 }) ∧
    ag.available = true ∧ ag ∈ s.agents ∧
    (∀ a ∈ s.agents, a.available = true →
      ag.current_workload ≤ a.current_workload) ∧
    (∃ l1 l2, s.agents.filter (fun a => a.available) = l1 ++ ag :: l2 ∧
      ∀ a ∈ l1, ag.current_workload < a.current_workload) ∧
    (∀ b ∈ s.waiting_queue, c.service_time ≤ b.service_time) ∧
    (∀ b ∈ s.waiting_queue,
      (∃ a ∈ s.waiting_queue, a.service_time < b.service_time) → c ≠ b) := by
  obtain ⟨hsorted, hperm, hmin⟩ := insertionSort_head_min hsort
  have hq : s.waiting_queue ≠ [] := by
    intro h
    rw [h] at hsort
    simp [List.insertionSort] at hsort
  have heq : shortest_job_next now s =
      (some (assign_customer ag c now).2.2,
       { s with
         waiting_queue := rest,
         agents := setAgent s.agents (assign_customer ag c now).2.1 }) := by
    unfold shortest_job_next
    rw [if_neg hq, hmn, hsort]
  obtain ⟨l1, l2, hfilter, hlt⟩ :=
    pythonMin_decomp (fun a => a.current_workload) _ ag hmn
  have hagfil : ag ∈ s.agents.filter fun a => a.available := by
    rw [hfilter]
    exact List.mem_append_right l1 (List.mem_cons_self ag l2)
  obtain ⟨hagmem, hagav⟩ := List.mem_filter.mp hagfil
  have hmin' : ∀ a ∈ s.agents, a.available = true →
      ag.current_workload ≤ a.current_workload := by
    intro a hamem haav
    have : a ∈ s.agents.filter fun x => x.available := List.mem_filter.mpr ⟨hamem, haav⟩
    rw [hfilter] at this
    rcases List.mem_append.mp this with h | h
    · exact le_of_lt (hlt.1 a h)
    · rcases List.mem_cons.mp h with rfl | h
      · exact le_refl _
      · exact hlt.2 a h
  have hShort : ∀ b ∈ s.waiting_queue, c.service_time ≤ b.service_time := by
    intro b hb
    rcases hmin b hb with h | ⟨h, _⟩
    · exact le_of_lt h
    · exact le_of_eq h
  refine ⟨hsorted, hperm, heq, hagav, hagmem, hmin', ⟨l1, l2, hfilter, hlt.1⟩,
    hShort, ?_⟩
  rintro b hb ⟨a, ha, halt⟩ hcb
  subst hcb
  have := (hShort a ha).trans_lt halt
  exact absurd this (lt_irrefl _)

/-- Witness for C3, realizing the scenario of spec section 8: with one
available worker and queue `[A (duration 10), B (duration 5)]`, the
shortest-job-next policy dispatches B first and leaves A queued. -/
theorem shortest_job_next_spec_witness :
    shortest_job_next 2 exState =
      (some (assign_customer agentOne itemB 2).2.2,
       { exState with
         waiting_queue := [itemA],
         agents := setAgent exState.agents (assign_customer agentOne itemB 2).2.1 }) :=
  ((shortest_job_next_spec 2 exState itemB [itemA] agentOne (by decide)
    (by decide)).2.2).1

theorem workloadVariance_cast (ws : List ℤ) :
    ((workloadVariance ws : ℚ) : ℝ) =
      (ws.map fun (w : ℤ) => ((w : ℝ) - (ws.sum : ℝ) / (ws.length : ℝ)) ^ 2).sum /
        (ws.length : ℝ) := by
  unfold workloadVariance workloadMean
  rw [Rat.cast_div, Rat.cast_list_sum, List.map_map]
  simp only [Function.comp_def]
  push_cast
  simp only [List.map_map, Function.comp_def, Rat.cast_intCast]

/-- Claim C7: the fairness score of `get_metrics` is
`100 - 100 * (population standard deviation of the current loads)`,
defaulting to 100 with no workers; it is 100 whenever all loads are equal,
and it is unclamped — on loads `[0, 3]` it is `-50`, a negative value. -/
theorem fairness_score_spec :
    fairness_score [] = 100 ∧
    (∀ ws : List ℤ, ws ≠ [] → fairness_score ws = 100 - 100 * popStddev ws) ∧
    (∀ (ws : List ℤ) (k : ℤ), ws ≠ [] → (∀ w ∈ ws, w = k) →
      fairness_score ws = 100) ∧
    fairness_score [0, 3] = -50 := by
  refine ⟨by simp [fairness_score], ?_, ?_, ?_⟩
  · intro ws hws
    unfold fairness_score popStddev
    rw [if_neg hws, workloadVariance_cast]
  · intro ws k hws hall
    unfold fairness_score
    rw [if_neg hws]
    have hlen : (ws.length : ℚ) ≠ 0 :=
      Nat.cast_ne_zero.mpr (by simpa [List.length_eq_zero] using hws)
    have hmean : workloadMean ws = (k : ℚ) := by
      unfold workloadMean
      rw [List.sum_eq_card_nsmul ws k hall]
      field_simp
    have hvar : workloadVariance ws = 0 := by
      unfold workloadVariance
      have hz : (ws.map fun (w : ℤ) => ((w : ℚ) - workloadMean ws) ^ 2).sum = 0 := by
        apply List.sum_eq_zero
        intro x hx
        obtain ⟨w, hw, rfl⟩ := List.mem_map.mp hx
        rw [hall w hw, hmean]
        ring
      rw [hz, zero_div]
    rw [hvar]
    simp
  · have hvar : workloadVariance [0, 3] = 9 / 4 := by
      norm_num [workloadVariance, workloadMean]
    unfold fairness_score
    rw [if_neg (by simp), hvar]
    rw [show ((9 / 4 : ℚ) : ℝ) = (3 / 2) ^ 2 by norm_num]
    rw [Real.sqrt_sq (by norm_num : (0:ℝ) ≤ 3 / 2)]
    norm_num

/-- Witness for C7: two workers both at load 2 give fairness 100. -/
theorem fairness_score_spec_witness : fairness_score [2, 2] = 100 :=
  fairness_score_spec.2.2.1 [2, 2] 2 (by decide) (by decide)

/-- A worker with 10 accumulated service seconds, used to show that
`get_metrics` output depends on the clock. -/
def agentServed : Agent :=
  { agent_id := 31, name := "Gray", workload_limit := 2, total_service_time := 10,
    last_status_change := 0 }

/-- A concrete state for the metrics claims. -/
def metricsState : SysState :=
  { agents := [agentServed], waiting_queue := [], service_history := [],
    current_algorithm := .round_robin }

/-- Counterexample for C8 as stated: `get_metrics` read at clock 0 and again
at clock 10 on the very same state (no change to workers, queue, history or
policy) reports agent utilization 100 and then 50, because
`calculate_utilization_rate` reads the current time. -/
theorem get_metrics_differs_over_time :
    (get_metrics metricsState 0).agent_utilization = 100 ∧
    (get_metrics metricsState 10).agent_utilization = 50 := by
  constructor
  · show round2 (avg_utilization metricsState.agents 0) = 100
    norm_num [avg_utilization, calculate_utilization_rate, metricsState,
      agentServed, round2, round_eq]
  · show round2 (avg_utilization metricsState.agents 10) = 50
    norm_num [avg_utilization, calculate_utilization_rate, metricsState,
      agentServed, round2, round_eq]

/-- Claim C8 as amended: `get_metrics` is a pure function of the state and
the clock; two calls with unchanged state and the same clock reading agree
on everything, and even across different clock readings every component
except agent utilization (which depends on elapsed time) is unchanged. -/
theorem get_metrics_deterministic (s : SysState) (t1 t2 : ℚ) :
    (get_metrics s t1).average_wait_time = (get_metrics s t2).average_wait_time ∧
    (get_metrics s t1).fairness_score = (get_metrics s t2).fairness_score ∧
    (get_metrics s t1).completed_customers = (get_metrics s t2).completed_customers ∧
    (get_metrics s t1).customers_in_queue = (get_metrics s t2).customers_in_queue ∧
    (get_metrics s t1).active_algorithm = (get_metrics s t2).active_algorithm ∧
    (t1 = t2 → get_metrics s t1 = get_metrics s t2) := by
  refine ⟨rfl, rfl, rfl, rfl, rfl, ?_⟩
  intro h
  rw [h]

/-- Witness for C8 (amended): two reads at the same clock value agree. -/
theorem get_metrics_deterministic_witness :
    get_metrics metricsState 3 = get_metrics metricsState 3 :=
  (get_metrics_deterministic metricsState 3 3).2.2.2.2.2 rfl

end ResourceScheduler
